import Mathlib

/-!
Shallow embedding of `src/parser.ts` of the converter repository: a small
assembler that turns one line of assembly text into a 16-bit machine word,
plus the semantic actions that each decoded instruction performs on the
register file, memory, output log and program counter.

JavaScript semantics that matter here and are modelled explicitly:
* the `<<` operator works on 32-bit two's-complement integers (`toInt32`,
  `jsShl`);
* `Number.prototype.toString(16)` renders a negative number as a minus sign
  followed by the hex digits of its absolute value (`jsToString16`);
* `String.prototype.trim` strips ASCII whitespace from both ends (`jsTrim`);
* out-of-bounds array writes at index 0 extend the array (`jsSetList`).

`parseInt` on a decimal digit string is modelled as the exact natural number
it denotes.
-/

namespace Converter

/-! ## JavaScript number helpers -/

/-- JavaScript `ToInt32`: wrap an integer to the range `[-2^31, 2^31)`. -/
def toInt32 (n : Int) : Int :=
  let m := n % 4294967296
  if m < 2147483648 then m else m - 4294967296

/-- JavaScript `a << s` for a nonnegative shift count: both the operand and
the result are wrapped to 32-bit two's complement; the count is taken mod 32. -/
def jsShl (a : Int) (s : Nat) : Int :=
  toInt32 (toInt32 a * 2 ^ (s % 32))

/-! ## Character and string helpers -/

/-- ASCII decimal digit (the character class `[0-9]` of the operand regex). -/
def isDigitAscii (c : Char) : Bool :=
  decide ('0' ≤ c ∧ c ≤ '9')

/-- ASCII alphanumeric (the character class `[0-9a-zA-Z]` of `COMMAND`). -/
def isAlnumAscii (c : Char) : Bool :=
  decide (('0' ≤ c ∧ c ≤ '9') ∨ ('a' ≤ c ∧ c ≤ 'z') ∨ ('A' ≤ c ∧ c ≤ 'Z'))

/-- ASCII whitespace stripped by JavaScript `trim`. -/
def isJsSpace (c : Char) : Bool :=
  c == ' ' || c == '\t' || c == '\n' || c == '\r' || c == '\x0b' || c == '\x0c'

/-- JavaScript `String.prototype.trim` on a character list. -/
def jsTrim (cs : List Char) : List Char :=
  ((cs.dropWhile isJsSpace).reverse.dropWhile isJsSpace).reverse

/-- JavaScript `String.prototype.toUpperCase` on one ASCII character. -/
def jsToUpper (c : Char) : Char :=
  if decide ('a' ≤ c ∧ c ≤ 'z') then Char.ofNat (c.toNat - 32) else c

/-- Value of a decimal digit string (`parseInt(s, 10)` on all-digit input). -/
def digitsToNat (ds : List Char) : Nat :=
  ds.foldl (fun a c => 10 * a + (c.toNat - 48)) 0

/-! ## Hexadecimal rendering (`Number.prototype.toString(16)` and `toHex`) -/

/-- Lowercase hex digit for a value `0..15`, as produced by `toString(16)`. -/
def hexDigitChar (n : Nat) : Char :=
  if n < 10 then Char.ofNat (48 + n) else Char.ofNat (87 + n)

/-- Digit-accumulating loop of the hex rendering. The first argument is
fuel; 16 digits cover every value below `16 ^ 16`, far beyond any value the
encoder can produce. -/
def hexGo : Nat → Nat → List Char → List Char
  | 0, _, acc => acc
  | fuel + 1, n, acc =>
    if n = 0 then acc else hexGo fuel (n / 16) (hexDigitChar (n % 16) :: acc)

/-- Hex digits of a natural number, lowercase, `"0"` for zero. -/
def natToHex (n : Nat) : List Char :=
  if n = 0 then ['0'] else hexGo 16 n []

/-- JavaScript `decimal.toString(16)` for an integer: a minus sign followed
by the hex digits of the absolute value when negative. -/
def jsToString16 (n : Int) : List Char :=
  if n < 0 then '-' :: natToHex n.natAbs else natToHex n.toNat

/-- The `while (hex.length < length) hex = '0' + hex` padding loop. -/
def padLeftZeros (len : Nat) (l : List Char) : List Char :=
  List.replicate (len - l.length) '0' ++ l

/-- The source's `toHex`: reject a value that needs more than `len` hex
digits, otherwise render and zero-pad to `len` digits. -/
def toHex (decimal : Int) (len : Nat) : Except String (List Char) :=
  if decimal ≥ (16 : Int) ^ len then
    .error ("Unable to convert " ++ toString decimal ++ " to HEX as it is too big")
  else
    .ok (padLeftZeros len (jsToString16 decimal))

/-! ## Opcode table -/

/-- The closed mnemonic set of `INSTRUCTIONS`. -/
inductive Mnemonic where
  | mov1 | mov2 | mov3 | mov4 | add | subt | jz | halt | mul | load | readm
  deriving DecidableEq, Repr

/-- Operand shape of one opcode (`ParsingData`):
number of register operands and presence of a trailing immediate. -/
structure ParsingData where
  registers : Nat
  immediate : Bool
  deriving DecidableEq, Repr

/-- The operand shapes of `PATTERNS` (semantic actions are kept separately,
keyed by the mnemonic). -/
def PATTERNS : Mnemonic → ParsingData
  | .mov1 => ⟨1, true⟩
  | .mov2 => ⟨1, true⟩
  | .mov3 => ⟨2, false⟩
  | .mov4 => ⟨1, true⟩
  | .add => ⟨3, false⟩
  | .subt => ⟨3, false⟩
  | .jz => ⟨1, true⟩
  | .halt => ⟨0, false⟩
  | .mul => ⟨3, false⟩
  | .load => ⟨2, false⟩
  | .readm => ⟨0, true⟩

/-- The table `INSTRUCTION_NUMBERS`: the numeric opcode of each mnemonic. -/
def INSTRUCTION_NUMBERS : Mnemonic → Nat
  | .mov1 => 0
  | .mov2 => 1
  | .mov3 => 2
  | .mov4 => 3
  | .add => 4
  | .subt => 5
  | .jz => 6
  | .halt => 15
  | .mul => 8
  | .load => 10
  | .readm => 7

/-- Resolution of a mnemonic string to its own (non-inherited) key in the
`PATTERNS` object literal (case sensitive). -/
def mnemonicOfString : String → Option Mnemonic
  | "mov1" => some .mov1
  | "mov2" => some .mov2
  | "mov3" => some .mov3
  | "mov4" => some .mov4
  | "add" => some .add
  | "subt" => some .subt
  | "jz" => some .jz
  | "halt" => some .halt
  | "mul" => some .mul
  | "load" => some .load
  | "readm" => some .readm
  | _ => none

/-- The alphanumeric property names that a JavaScript object literal
inherits from `Object.prototype`. The `COMMAND` regex only ever extracts
alphanumeric mnemonic tokens, so the underscore-prefixed inherited names
(`__proto__` and friends) are unreachable as mnemonics. -/
def protoProps : List String :=
  ["constructor", "hasOwnProperty", "isPrototypeOf", "propertyIsEnumerable",
   "toLocaleString", "toString", "valueOf"]

/-- JavaScript's `instruction in PATTERNS`: the `in` operator searches the
prototype chain, so it accepts both the eleven own mnemonic keys and the
property names inherited from `Object.prototype`. -/
def jsInPatterns (s : String) : Bool :=
  (mnemonicOfString s).isSome || protoProps.contains s

/-- A decoded instruction. The source stores the semantic action function
itself; here the defunctionalised table key is stored instead, which
identifies the same action. -/
structure Instruction where
  args : List Nat
  action : Mnemonic
  hex : String
  deriving DecidableEq, Repr

/-! ## Operand grammar (`makeRegex` and the match against it)

The regex built by `makeRegex` is `^p_1 +p_2 +... +p_k$` where each register
operand contributes a piece `R([0-9]+)` and a trailing immediate contributes
`([0-9]+)`. Digit runs and space runs use disjoint characters, so the
backtracking regex match is equivalent to the deterministic maximal-munch
matcher below. Zero pieces give `^$`, matching only the empty remainder. -/

/-- Read a maximal nonempty run of decimal digits; return its value and the
rest of the input. -/
def readDigits (cs : List Char) : Option (Nat × List Char) :=
  let ds := cs.takeWhile isDigitAscii
  if ds = [] then none else some (digitsToNat ds, cs.dropWhile isDigitAscii)

/-- Consume the separator ` +` (one or more literal spaces). -/
def skipSpaces1 : List Char → Option (List Char)
  | ' ' :: rest => some (rest.dropWhile (fun c => c == ' '))
  | _ => none

/-- Match one operand piece: `R([0-9]+)` for a register (flag `true`),
`([0-9]+)` for an immediate (flag `false`). -/
def matchTok (isReg : Bool) (cs : List Char) : Option (Nat × List Char) :=
  if isReg then
    match cs with
    | 'R' :: rest => readDigits rest
    | _ => none
  else readDigits cs

/-- Match a sequence of operand pieces separated by ` +` and anchored at the
end of the input, returning the captured numbers in order. -/
def matchTokensGo : List Bool → List Char → Option (List Nat)
  | [], cs => if cs = [] then some [] else none
  | t :: ts, cs =>
    match matchTok t cs with
    | none => none
    | some (n, rest) =>
      match ts with
      | [] => if rest = [] then some [n] else none
      | _ :: _ =>
        match skipSpaces1 rest with
        | none => none
        | some rest2 =>
          match matchTokensGo ts rest2 with
          | none => none
          | some ns => some (n :: ns)

/-- Piece list of `makeRegex`: one register piece per register operand, then
an immediate piece when the shape has one. -/
def tokensOf (registers : Nat) (immediate : Bool) : List Bool :=
  List.replicate registers true ++ (if immediate then [false] else [])

/-- The whole operand grammar of a shape, applied to the operand text. -/
def matchShape (pd : ParsingData) (cs : List Char) : Option (List Nat) :=
  matchTokensGo (tokensOf pd.registers pd.immediate) cs

/-! ## Line parser -/

/-- The preprocessing `line.split('#')[0].trim()`: drop the comment and trim whitespace. -/
def stripLine (line : String) : List Char :=
  jsTrim (line.data.takeWhile (fun c => c != '#'))

/-- The `COMMAND` regex `^([0-9a-zA-Z]+)(.*?)$`: the maximal alphanumeric
prefix (nonempty) and everything after it. -/
def extractCommand (cs : List Char) : Option (List Char × List Char) :=
  let mn := cs.takeWhile isAlnumAscii
  if mn = [] then none else some (mn, cs.dropWhile isAlnumAscii)

/-- The register loop `for (const i of range(registers)) decimal +=
numbers[i] << (4 * (2 - i))`, walking the register values with their
0-based position `i`. -/
def encodeRegs : Nat → List Nat → Int → Int
  | _, [], acc => acc
  | i, v :: vs, acc => encodeRegs (i + 1) vs (acc + jsShl (v : Int) (4 * (2 - i)))

/-- The encoding of `parseLine`: start from `opcode << 12`, add each
register value shifted by `4 * (2 - i)` bits (`i` its 0-based position),
then add the trailing immediate unshifted when the shape has one. -/
def encodeDecimal (nums : Mnemonic → Nat) (key : Mnemonic) (ns : List Nat) : Int :=
  let base := encodeRegs 0 (ns.take (PATTERNS key).registers) (jsShl (nums key : Int) 12)
  if (PATTERNS key).immediate then base + ((ns.getLast?).getD 0 : Int) else base

/-- The body of `parseLine`, generalised over the opcode-number table (the source reads
the module-level constant `INSTRUCTION_NUMBERS`; see `parseLine`). -/
def parseLineWith (nums : Mnemonic → Nat) (line : String) : Except String (Option Instruction) :=
  if stripLine line = [] then .ok none
  else
    match extractCommand (stripLine line) with
    | none => .error ("Unable to parse instruction name for line: " ++ String.mk (stripLine line))
    | some (mn, restRaw) =>
      if ! jsInPatterns (String.mk mn) then
        .error ("Unknown instruction: " ++ String.mk mn)
      else
      match mnemonicOfString (String.mk mn) with
      | none =>
        -- The mnemonic passed the membership test only via the prototype
        -- chain: `INSTRUCTION_NUMBERS[key]` is then an inherited function,
        -- the 4-bit check passes (`NaN > 15` is false), and destructuring
        -- `PATTERNS[key]` — a function, not a pair — throws a TypeError
        -- before any operand matching. The message text is
        -- engine-specific; V8's wording is modelled.
        .error ("TypeError: patterns is not iterable")
      | some key =>
        if nums key > 15 then
          .error ("Invalid instruction number: " ++ toString (nums key))
        else
          match matchShape (PATTERNS key) (jsTrim restRaw) with
          | none =>
            .error ("Unable to parse arguments for \"" ++ String.mk mn ++ "\": \""
              ++ String.mk (jsTrim restRaw) ++ "\"")
          | some ns =>
            match toHex (encodeDecimal nums key ns) 4 with
            | .error e => .error e
            | .ok hexChars => .ok (some ⟨ns, key, String.mk (hexChars.map jsToUpper)⟩)

/-- The source's `parseLine`: parse one line against the actual table. -/
def parseLine (line : String) : Except String (Option Instruction) :=
  parseLineWith INSTRUCTION_NUMBERS line

/-! ## Program assembler (`parse`) -/

/-- JavaScript `text.split('\n')` on a character list. -/
def splitLines : List Char → List (List Char)
  | [] => [[]]
  | c :: cs =>
    if c = '\n' then [] :: splitLines cs
    else
      match splitLines cs with
      | [] => [[c]]
      | l :: ls => (c :: l) :: ls

/-- The mapping `lines.map(parseLine)` with JavaScript exception propagation: the first
line that throws aborts the whole map. -/
def mapParse : List String → Except String (List (Option Instruction))
  | [] => .ok []
  | l :: ls =>
    match parseLine l with
    | .error e => .error e
    | .ok r =>
      match mapParse ls with
      | .error e => .error e
      | .ok rs => .ok (r :: rs)

/-- The source's `parse`: split the program text into lines, parse each, and keep the
decoded instructions of the lines that did not parse to `null`. -/
def parse (text : String) : Except String (List Instruction) :=
  Except.map (List.filterMap id) (mapParse ((splitLines text.data).map (fun cs => String.mk cs)))

/-! ## Execution state and the semantic actions the claims are about -/

/-- The process-wide mutable state of the source module: `REG`, `MEM`,
`OUT` and `COUNTER`. -/
structure MachineState where
  reg : List Int
  mem : List Int
  out : List Int
  counter : Int
  deriving DecidableEq, Repr

/-- The initial state: 16 zeroed registers, 256 zeroed memory slots, an
empty output log and a zero program counter. -/
def initialState : MachineState :=
  ⟨List.replicate 16 0, List.replicate 256 0, [], 0⟩

/-- The output-log index `TIME`; the module defines it as the constant 0
and never changes it. -/
def TIME : Nat := 0

/-- JavaScript array element assignment `l[i] = v`: in-range writes update
the slot; a write one past the end appends. -/
def jsSetList (l : List Int) (i : Nat) (v : Int) : List Int :=
  if i < l.length then l.set i v else l ++ List.replicate (i - l.length) 0 ++ [v]

/-- Action `jz(r1, imm)`: when `REG[r1]` is nonzero, set `COUNTER` to `imm`;
otherwise do nothing. -/
def jz (r1 : Nat) (imm : Nat) (s : MachineState) : MachineState :=
  if s.reg.getD r1 0 ≠ 0 then { s with counter := (imm : Int) } else s

/-- Action `mov4(r1, imm)`: write the immediate to `MEM[r1]`. -/
def mov4 (r1 : Nat) (imm : Nat) (s : MachineState) : MachineState :=
  { s with mem := s.mem.set r1 (imm : Int) }

/-- Action `readm(imm)`: write the immediate to `OUT[TIME]`. -/
def readm (imm : Nat) (s : MachineState) : MachineState :=
  { s with out := jsSetList s.out TIME (imm : Int) }

/-! ## Specification-side definitions (the claims' own formulas) -/

/-- The claim's register sum: the register value at 0-based position `i`
contributes `v_i * 16 ^ (2 - i)` (that is, `v_i << (4 * (2 - i))` without
wrapping). -/
def regSum : Nat → List Nat → Nat
  | _, [] => 0
  | i, v :: vs => v * 16 ^ (2 - i) + regSum (i + 1) vs

/-- The claim's encoding formula: `(c << 12) + Σ v_i << (4 * (2 - i)) + m`,
read with exact (non-wrapping) shifts. -/
def encodeSpec (key : Mnemonic) (ns : List Nat) : Nat :=
  INSTRUCTION_NUMBERS key * 4096 + regSum 0 (ns.take (PATTERNS key).registers)
    + (if (PATTERNS key).immediate then (ns.getLast?).getD 0 else 0)

/-- A value rendered as exactly 4 uppercase zero-padded hexadecimal digits. -/
def renderHex4 (n : Nat) : String :=
  String.mk ((padLeftZeros 4 (natToHex n)).map jsToUpper)

/-- Uppercase hex digit of a value `0..15`. -/
def upperHexDigitChar (n : Nat) : Char :=
  jsToUpper (hexDigitChar n)

/-- Number of operands a shape captures: registers plus one for a trailing
immediate. -/
def arityOf (key : Mnemonic) : Nat :=
  (PATTERNS key).registers + (if (PATTERNS key).immediate then 1 else 0)

/-- A table that is identical to `INSTRUCTION_NUMBERS` except that it maps
`halt` to 16, which does not fit in 4 bits. -/
def badNums : Mnemonic → Nat
  | .halt => 16
  | k => INSTRUCTION_NUMBERS k

/-! ## Arithmetic helper lemmas -/

theorem toInt32_coe (n : Nat) (h : n < 2147483648) : toInt32 (n : Int) = (n : Int) := by
  unfold toInt32
  have h1 : (n : Int) % 4294967296 = (n : Int) :=
    Int.emod_eq_of_lt (by positivity) (by exact_mod_cast lt_trans h (by norm_num))
  simp only [h1]
  rw [if_pos (by exact_mod_cast h)]

theorem jsShl_nat (v s : Nat) (hs : s < 32) (hv : v * 2 ^ s < 2147483648) :
    jsShl (v : Int) s = ((v * 2 ^ s : Nat) : Int) := by
  have hvs : v < 2147483648 := by
    have : v ≤ v * 2 ^ s := Nat.le_mul_of_pos_right v (Nat.pos_pow_of_pos s (by norm_num))
    omega
  unfold jsShl
  rw [Nat.mod_eq_of_lt hs, toInt32_coe v hvs]
  have : (v : Int) * 2 ^ s = ((v * 2 ^ s : Nat) : Int) := by push_cast; ring
  rw [this, toInt32_coe _ hv]

/-! ## Hex rendering lemmas -/

theorem hexGo_zero (fuel : Nat) (acc : List Char) : hexGo fuel 0 acc = acc := by
  cases fuel <;> simp [hexGo]

theorem hexGo_succ (fuel n : Nat) (acc : List Char) (h : n ≠ 0) :
    hexGo (fuel + 1) n acc = hexGo fuel (n / 16) (hexDigitChar (n % 16) :: acc) := by
  simp [hexGo, h]

theorem natToHex_one (n : Nat) (h1 : 0 < n) (h2 : n < 16) :
    natToHex n = [hexDigitChar n] := by
  unfold natToHex
  rw [if_neg (by omega)]
  show hexGo (15 + 1) n [] = _
  rw [hexGo_succ 15 n [] (by omega)]
  have e1 : n / 16 = 0 := by omega
  have e2 : n % 16 = n := by omega
  rw [e1, e2, hexGo_zero]

theorem natToHex_two (n : Nat) (h1 : 16 ≤ n) (h2 : n < 256) :
    natToHex n = [hexDigitChar (n / 16), hexDigitChar (n % 16)] := by
  unfold natToHex
  rw [if_neg (by omega)]
  show hexGo (15 + 1) n [] = _
  rw [hexGo_succ 15 n [] (by omega)]
  show hexGo (14 + 1) _ _ = _
  rw [hexGo_succ 14 _ _ (by omega)]
  have e1 : n / 16 / 16 = 0 := by omega
  have e2 : n / 16 % 16 = n / 16 := by omega
  rw [e1, e2, hexGo_zero]

theorem natToHex_three (n : Nat) (h1 : 256 ≤ n) (h2 : n < 4096) :
    natToHex n = [hexDigitChar (n / 256), hexDigitChar (n / 16 % 16), hexDigitChar (n % 16)] := by
  unfold natToHex
  rw [if_neg (by omega)]
  show hexGo (15 + 1) n [] = _
  rw [hexGo_succ 15 n [] (by omega)]
  show hexGo (14 + 1) _ _ = _
  rw [hexGo_succ 14 _ _ (by omega)]
  show hexGo (13 + 1) _ _ = _
  rw [hexGo_succ 13 _ _ (by omega)]
  have e1 : n / 16 / 16 = n / 256 := by omega
  have e2 : n / 256 / 16 = 0 := by omega
  have e3 : n / 256 % 16 = n / 256 := by omega
  rw [e1, e2, e3, hexGo_zero]

theorem natToHex_four (n : Nat) (h1 : 4096 ≤ n) (h2 : n < 65536) :
    natToHex n = [hexDigitChar (n / 4096), hexDigitChar (n / 256 % 16),
      hexDigitChar (n / 16 % 16), hexDigitChar (n % 16)] := by
  unfold natToHex
  rw [if_neg (by omega)]
  show hexGo (15 + 1) n [] = _
  rw [hexGo_succ 15 n [] (by omega)]
  show hexGo (14 + 1) _ _ = _
  rw [hexGo_succ 14 _ _ (by omega)]
  show hexGo (13 + 1) _ _ = _
  rw [hexGo_succ 13 _ _ (by omega)]
  have e1 : n / 16 / 16 = n / 256 := by omega
  rw [e1]
  show hexGo (12 + 1) _ _ = _
  rw [hexGo_succ 12 _ _ (by omega)]
  have e2 : n / 256 / 16 = n / 4096 := by omega
  have e3 : n / 4096 / 16 = 0 := by omega
  have e4 : n / 4096 % 16 = n / 4096 := by omega
  rw [e2, e3, e4, hexGo_zero]

/-- Length and leading digit of the 4-digit zero-padded rendering. -/
theorem render4_spec (D : Nat) (h : D < 65536) :
    (padLeftZeros 4 (natToHex D)).length = 4 ∧
    (padLeftZeros 4 (natToHex D)).headD ' ' = hexDigitChar (D / 4096) := by
  rcases Nat.lt_or_ge D 16 with hb | hb
  · rcases Nat.eq_zero_or_pos D with h0 | h0
    · subst h0
      exact ⟨rfl, rfl⟩
    · rw [natToHex_one D h0 hb]
      have e : D / 4096 = 0 := by omega
      rw [e]
      exact ⟨rfl, rfl⟩
  rcases Nat.lt_or_ge D 256 with hb2 | hb2
  · rw [natToHex_two D hb hb2]
    have e : D / 4096 = 0 := by omega
    rw [e]
    exact ⟨rfl, rfl⟩
  rcases Nat.lt_or_ge D 4096 with hb3 | hb3
  · rw [natToHex_three D hb2 hb3]
    have e : D / 4096 = 0 := by omega
    rw [e]
    exact ⟨rfl, rfl⟩
  · rw [natToHex_four D hb3 h]
    exact ⟨rfl, rfl⟩

theorem headD_map (f : Char → Char) (l : List Char) (d : Char) :
    (l.map f).headD (f d) = f (l.headD d) := by
  cases l <;> rfl

/-! ## Operand matcher lemmas -/

theorem matchTokensGo_length :
    ∀ (ts : List Bool) (cs : List Char) (ns : List Nat),
      matchTokensGo ts cs = some ns → ns.length = ts.length := by
  intro ts
  induction ts with
  | nil =>
    intro cs ns h
    unfold matchTokensGo at h
    split at h
    · simp only [Option.some.injEq] at h
      subst h
      rfl
    · cases h
  | cons t ts ih =>
    intro cs ns h
    unfold matchTokensGo at h
    cases hm : matchTok t cs with
    | none => rw [hm] at h; cases h
    | some p =>
      rw [hm] at h
      obtain ⟨n, rest⟩ := p
      cases ts with
      | nil =>
        simp only at h
        split at h
        · simp only [Option.some.injEq] at h
          subst h
          rfl
        · cases h
      | cons t2 ts2 =>
        simp only at h
        cases hs : skipSpaces1 rest with
        | none => rw [hs] at h; cases h
        | some rest2 =>
          rw [hs] at h
          simp only at h
          cases hg : matchTokensGo (t2 :: ts2) rest2 with
          | none => rw [hg] at h; cases h
          | some ns2 =>
            rw [hg] at h
            simp only [Option.some.injEq] at h
            subst h
            simp [ih rest2 ns2 hg]

theorem matchShape_length {pd : ParsingData} {cs : List Char} {ns : List Nat}
    (h : matchShape pd cs = some ns) :
    ns.length = pd.registers + (if pd.immediate then 1 else 0) := by
  have := matchTokensGo_length _ _ _ h
  rw [this]
  simp only [tokensOf, List.length_append, List.length_replicate]
  cases pd.immediate <;> simp

/-! ## Encoding lemmas -/

theorem encode3 (c0 a b c : Nat) (hc : c0 ≤ 15)
    (ha : a < 2 ^ 23) (hb : b < 2 ^ 23) (hcc : c < 2 ^ 23) :
    jsShl (c0 : Int) 12 + jsShl (a : Int) 8 + jsShl (b : Int) 4 + jsShl (c : Int) 0
      = ((c0 * 4096 + (a * 256 + b * 16 + c) : Nat) : Int) := by
  norm_num at ha hb hcc
  rw [jsShl_nat c0 12 (by omega) (by norm_num; omega),
      jsShl_nat a 8 (by omega) (by norm_num; omega),
      jsShl_nat b 4 (by omega) (by norm_num; omega),
      jsShl_nat c 0 (by omega) (by norm_num; omega)]
  push_cast
  ring

theorem encode2 (c0 a b : Nat) (hc : c0 ≤ 15) (ha : a < 2 ^ 23) (hb : b < 2 ^ 23) :
    jsShl (c0 : Int) 12 + jsShl (a : Int) 8 + jsShl (b : Int) 4
      = ((c0 * 4096 + (a * 256 + b * 16) : Nat) : Int) := by
  norm_num at ha hb
  rw [jsShl_nat c0 12 (by omega) (by norm_num; omega),
      jsShl_nat a 8 (by omega) (by norm_num; omega),
      jsShl_nat b 4 (by omega) (by norm_num; omega)]
  push_cast
  ring

theorem encode1imm (c0 a m : Nat) (hc : c0 ≤ 15) (ha : a < 2 ^ 23) :
    jsShl (c0 : Int) 12 + jsShl (a : Int) 8 + (m : Int)
      = ((c0 * 4096 + a * 256 + m : Nat) : Int) := by
  norm_num at ha
  rw [jsShl_nat c0 12 (by omega) (by norm_num; omega),
      jsShl_nat a 8 (by omega) (by norm_num; omega)]
  push_cast
  ring

theorem encode0imm (c0 m : Nat) (hc : c0 ≤ 15) :
    jsShl (c0 : Int) 12 + (m : Int) = ((c0 * 4096 + m : Nat) : Int) := by
  rw [jsShl_nat c0 12 (by omega) (by norm_num; omega)]
  push_cast
  ring

theorem encode0 (c0 : Nat) (hc : c0 ≤ 15) :
    jsShl (c0 : Int) 12 = ((c0 * 4096 : Nat) : Int) := by
  rw [jsShl_nat c0 12 (by omega) (by norm_num; omega)]
  push_cast
  ring

/-! ## Unfolding facts for the encoder

The kernel handles these definitional computations best one small step at a
time, so each is its own lemma. -/

theorem take_three {α : Type} (a b c : α) : List.take 3 [a, b, c] = [a, b, c] := rfl

theorem take_two {α : Type} (a b : α) : List.take 2 [a, b] = [a, b] := rfl

theorem take_one_of_two {α : Type} (a b : α) : List.take 1 [a, b] = [a] := rfl

theorem getLastD_two (a m : Nat) : (([a, m] : List Nat).getLast?).getD 0 = m := rfl

theorem getLastD_one (m : Nat) : (([m] : List Nat).getLast?).getD 0 = m := rfl

theorem regSum_three (a b c : Nat) :
    regSum 0 [a, b, c] = a * 16 ^ 2 + (b * 16 ^ 1 + (c * 16 ^ 0 + 0)) := rfl

theorem regSum_two (a b : Nat) : regSum 0 [a, b] = a * 16 ^ 2 + (b * 16 ^ 1 + 0) := rfl

theorem regSum_one (a : Nat) : regSum 0 [a] = a * 16 ^ 2 + 0 := rfl

theorem encodeDecimal_def (nums : Mnemonic → Nat) (key : Mnemonic) (ns : List Nat) :
    encodeDecimal nums key ns
      = if (PATTERNS key).immediate
        then encodeRegs 0 (ns.take (PATTERNS key).registers) (jsShl ((nums key : Nat) : Int) 12)
          + ((ns.getLast?).getD 0 : Int)
        else encodeRegs 0 (ns.take (PATTERNS key).registers)
          (jsShl ((nums key : Nat) : Int) 12) := rfl

theorem encodeRegs_three (a b c : Nat) (x : Int) :
    encodeRegs 0 [a, b, c] x
      = x + jsShl (a : Int) 8 + jsShl (b : Int) 4 + jsShl (c : Int) 0 := rfl

theorem encodeRegs_two (a b : Nat) (x : Int) :
    encodeRegs 0 [a, b] x = x + jsShl (a : Int) 8 + jsShl (b : Int) 4 := rfl

theorem encodeRegs_one (a : Nat) (x : Int) :
    encodeRegs 0 [a] x = x + jsShl (a : Int) 8 := rfl

theorem encodeRegs_nil (x : Int) : encodeRegs 0 [] x = x := rfl

theorem dec_add (a b c : Nat) : encodeDecimal INSTRUCTION_NUMBERS Mnemonic.add [a, b, c]
    = jsShl ((4 : Nat) : Int) 12 + jsShl (a : Int) 8 + jsShl (b : Int) 4
      + jsShl (c : Int) 0 := by
  rw [encodeDecimal_def]
  simp [PATTERNS, INSTRUCTION_NUMBERS, take_three, encodeRegs_three]

theorem dec_subt (a b c : Nat) : encodeDecimal INSTRUCTION_NUMBERS Mnemonic.subt [a, b, c]
    = jsShl ((5 : Nat) : Int) 12 + jsShl (a : Int) 8 + jsShl (b : Int) 4
      + jsShl (c : Int) 0 := by
  rw [encodeDecimal_def]
  simp [PATTERNS, INSTRUCTION_NUMBERS, take_three, encodeRegs_three]

theorem dec_mul (a b c : Nat) : encodeDecimal INSTRUCTION_NUMBERS Mnemonic.mul [a, b, c]
    = jsShl ((8 : Nat) : Int) 12 + jsShl (a : Int) 8 + jsShl (b : Int) 4
      + jsShl (c : Int) 0 := by
  rw [encodeDecimal_def]
  simp [PATTERNS, INSTRUCTION_NUMBERS, take_three, encodeRegs_three]

theorem dec_mov3 (a b : Nat) : encodeDecimal INSTRUCTION_NUMBERS Mnemonic.mov3 [a, b]
    = jsShl ((2 : Nat) : Int) 12 + jsShl (a : Int) 8 + jsShl (b : Int) 4 := by
  rw [encodeDecimal_def]
  simp [PATTERNS, INSTRUCTION_NUMBERS, take_two, encodeRegs_two]

theorem dec_load (a b : Nat) : encodeDecimal INSTRUCTION_NUMBERS Mnemonic.load [a, b]
    = jsShl ((10 : Nat) : Int) 12 + jsShl (a : Int) 8 + jsShl (b : Int) 4 := by
  rw [encodeDecimal_def]
  simp [PATTERNS, INSTRUCTION_NUMBERS, take_two, encodeRegs_two]

theorem dec_mov1 (a m : Nat) : encodeDecimal INSTRUCTION_NUMBERS Mnemonic.mov1 [a, m]
    = jsShl ((0 : Nat) : Int) 12 + jsShl (a : Int) 8 + ((m : Nat) : Int) := by
  rw [encodeDecimal_def]
  simp [PATTERNS, INSTRUCTION_NUMBERS, take_one_of_two, encodeRegs_one, getLastD_two]

theorem dec_mov2 (a m : Nat) : encodeDecimal INSTRUCTION_NUMBERS Mnemonic.mov2 [a, m]
    = jsShl ((1 : Nat) : Int) 12 + jsShl (a : Int) 8 + ((m : Nat) : Int) := by
  rw [encodeDecimal_def]
  simp [PATTERNS, INSTRUCTION_NUMBERS, take_one_of_two, encodeRegs_one, getLastD_two]

theorem dec_mov4 (a m : Nat) : encodeDecimal INSTRUCTION_NUMBERS Mnemonic.mov4 [a, m]
    = jsShl ((3 : Nat) : Int) 12 + jsShl (a : Int) 8 + ((m : Nat) : Int) := by
  rw [encodeDecimal_def]
  simp [PATTERNS, INSTRUCTION_NUMBERS, take_one_of_two, encodeRegs_one, getLastD_two]

theorem dec_jz (a m : Nat) : encodeDecimal INSTRUCTION_NUMBERS Mnemonic.jz [a, m]
    = jsShl ((6 : Nat) : Int) 12 + jsShl (a : Int) 8 + ((m : Nat) : Int) := by
  rw [encodeDecimal_def]
  simp [PATTERNS, INSTRUCTION_NUMBERS, take_one_of_two, encodeRegs_one, getLastD_two]

theorem dec_readm (m : Nat) : encodeDecimal INSTRUCTION_NUMBERS Mnemonic.readm [m]
    = jsShl ((7 : Nat) : Int) 12 + ((m : Nat) : Int) := by
  rw [encodeDecimal_def]
  simp [PATTERNS, INSTRUCTION_NUMBERS, List.take, encodeRegs_nil, getLastD_one]

theorem dec_halt : encodeDecimal INSTRUCTION_NUMBERS Mnemonic.halt []
    = jsShl ((15 : Nat) : Int) 12 := by
  rw [encodeDecimal_def]
  simp [PATTERNS, INSTRUCTION_NUMBERS, List.take, encodeRegs_nil]

theorem spec_add (a b c : Nat) :
    encodeSpec Mnemonic.add [a, b, c] = 4 * 4096 + regSum 0 [a, b, c] + 0 := by
  simp [encodeSpec, PATTERNS, INSTRUCTION_NUMBERS, take_three]

theorem spec_subt (a b c : Nat) :
    encodeSpec Mnemonic.subt [a, b, c] = 5 * 4096 + regSum 0 [a, b, c] + 0 := by
  simp [encodeSpec, PATTERNS, INSTRUCTION_NUMBERS, take_three]

theorem spec_mul (a b c : Nat) :
    encodeSpec Mnemonic.mul [a, b, c] = 8 * 4096 + regSum 0 [a, b, c] + 0 := by
  simp [encodeSpec, PATTERNS, INSTRUCTION_NUMBERS, take_three]

theorem spec_mov3 (a b : Nat) :
    encodeSpec Mnemonic.mov3 [a, b] = 2 * 4096 + regSum 0 [a, b] + 0 := by
  simp [encodeSpec, PATTERNS, INSTRUCTION_NUMBERS, take_two]

theorem spec_load (a b : Nat) :
    encodeSpec Mnemonic.load [a, b] = 10 * 4096 + regSum 0 [a, b] + 0 := by
  simp [encodeSpec, PATTERNS, INSTRUCTION_NUMBERS, take_two]

theorem spec_mov1 (a m : Nat) :
    encodeSpec Mnemonic.mov1 [a, m] = 0 * 4096 + regSum 0 [a] + m := by
  simp [encodeSpec, PATTERNS, INSTRUCTION_NUMBERS, take_one_of_two, getLastD_two]

theorem spec_mov2 (a m : Nat) :
    encodeSpec Mnemonic.mov2 [a, m] = 1 * 4096 + regSum 0 [a] + m := by
  simp [encodeSpec, PATTERNS, INSTRUCTION_NUMBERS, take_one_of_two, getLastD_two]

theorem spec_mov4 (a m : Nat) :
    encodeSpec Mnemonic.mov4 [a, m] = 3 * 4096 + regSum 0 [a] + m := by
  simp [encodeSpec, PATTERNS, INSTRUCTION_NUMBERS, take_one_of_two, getLastD_two]

theorem spec_jz (a m : Nat) :
    encodeSpec Mnemonic.jz [a, m] = 6 * 4096 + regSum 0 [a] + m := by
  simp [encodeSpec, PATTERNS, INSTRUCTION_NUMBERS, take_one_of_two, getLastD_two]

theorem spec_readm (m : Nat) : encodeSpec Mnemonic.readm [m] = 7 * 4096 + 0 + m := by
  simp [encodeSpec, PATTERNS, INSTRUCTION_NUMBERS, getLastD_one, regSum]

theorem spec_halt : encodeSpec Mnemonic.halt [] = 15 * 4096 + 0 + 0 := by
  simp [encodeSpec, PATTERNS, INSTRUCTION_NUMBERS, regSum]

/-- On every shape of the table, the encoding loop agrees with the claim's
exact-shift formula provided each register value is below `2 ^ 23` (so that
no 32-bit shift wraps). -/
theorem encodeDecimal_eq (key : Mnemonic) (ns : List Nat)
    (hlen : ns.length = arityOf key)
    (hreg : ∀ v ∈ ns.take (PATTERNS key).registers, v < 2 ^ 23) :
    encodeDecimal INSTRUCTION_NUMBERS key ns = ((encodeSpec key ns : Nat) : Int) := by
  cases key with
  | add =>
    obtain ⟨a, b, c, rfl⟩ := List.length_eq_three.mp hlen
    simp only [PATTERNS] at hreg
    rw [take_three] at hreg
    rw [dec_add, spec_add, regSum_three,
      encode3 4 a b c (by norm_num) (hreg a (by simp)) (hreg b (by simp)) (hreg c (by simp))]
    push_cast
    ring
  | subt =>
    obtain ⟨a, b, c, rfl⟩ := List.length_eq_three.mp hlen
    simp only [PATTERNS] at hreg
    rw [take_three] at hreg
    rw [dec_subt, spec_subt, regSum_three,
      encode3 5 a b c (by norm_num) (hreg a (by simp)) (hreg b (by simp)) (hreg c (by simp))]
    push_cast
    ring
  | mul =>
    obtain ⟨a, b, c, rfl⟩ := List.length_eq_three.mp hlen
    simp only [PATTERNS] at hreg
    rw [take_three] at hreg
    rw [dec_mul, spec_mul, regSum_three,
      encode3 8 a b c (by norm_num) (hreg a (by simp)) (hreg b (by simp)) (hreg c (by simp))]
    push_cast
    ring
  | mov3 =>
    obtain ⟨a, b, rfl⟩ := List.length_eq_two.mp hlen
    simp only [PATTERNS] at hreg
    rw [take_two] at hreg
    rw [dec_mov3, spec_mov3, regSum_two,
      encode2 2 a b (by norm_num) (hreg a (by simp)) (hreg b (by simp))]
    push_cast
    ring
  | load =>
    obtain ⟨a, b, rfl⟩ := List.length_eq_two.mp hlen
    simp only [PATTERNS] at hreg
    rw [take_two] at hreg
    rw [dec_load, spec_load, regSum_two,
      encode2 10 a b (by norm_num) (hreg a (by simp)) (hreg b (by simp))]
    push_cast
    ring
  | mov1 =>
    obtain ⟨a, m, rfl⟩ := List.length_eq_two.mp hlen
    simp only [PATTERNS] at hreg
    rw [take_one_of_two] at hreg
    rw [dec_mov1, spec_mov1, regSum_one, encode1imm 0 a m (by norm_num) (hreg a (by simp))]
    push_cast
    ring
  | mov2 =>
    obtain ⟨a, m, rfl⟩ := List.length_eq_two.mp hlen
    simp only [PATTERNS] at hreg
    rw [take_one_of_two] at hreg
    rw [dec_mov2, spec_mov2, regSum_one, encode1imm 1 a m (by norm_num) (hreg a (by simp))]
    push_cast
    ring
  | mov4 =>
    obtain ⟨a, m, rfl⟩ := List.length_eq_two.mp hlen
    simp only [PATTERNS] at hreg
    rw [take_one_of_two] at hreg
    rw [dec_mov4, spec_mov4, regSum_one, encode1imm 3 a m (by norm_num) (hreg a (by simp))]
    push_cast
    ring
  | jz =>
    obtain ⟨a, m, rfl⟩ := List.length_eq_two.mp hlen
    simp only [PATTERNS] at hreg
    rw [take_one_of_two] at hreg
    rw [dec_jz, spec_jz, regSum_one, encode1imm 6 a m (by norm_num) (hreg a (by simp))]
    push_cast
    ring
  | readm =>
    obtain ⟨m, rfl⟩ := List.length_eq_one.mp hlen
    rw [dec_readm, spec_readm, encode0imm 7 m (by norm_num)]
    try push_cast
  | halt =>
    have e0 : ns = [] := List.length_eq_zero.mp hlen
    subst e0
    rw [dec_halt, spec_halt, encode0 15 (by norm_num)]
    try push_cast

/-- On every shape of the table, when every register value fits its 4-bit
field and the immediate fits the remaining low bits, the claim formula
splits as the opcode in the top hex digit plus a remainder below `4096`. -/
theorem encodeSpec_decomp (key : Mnemonic) (ns : List Nat)
    (hlen : ns.length = arityOf key)
    (hreg : ∀ v ∈ ns.take (PATTERNS key).registers, v < 16)
    (himm : (PATTERNS key).immediate = true →
      (ns.getLast?).getD 0 < 16 ^ (3 - (PATTERNS key).registers)) :
    ∃ r, r < 4096 ∧ encodeSpec key ns = INSTRUCTION_NUMBERS key * 4096 + r := by
  cases key with
  | add =>
    obtain ⟨a, b, c, rfl⟩ := List.length_eq_three.mp hlen
    simp only [PATTERNS] at hreg
    rw [take_three] at hreg
    have ha := hreg a (by simp)
    have hb := hreg b (by simp)
    have hc := hreg c (by simp)
    refine ⟨a * 256 + (b * 16 + c), by omega, ?_⟩
    rw [spec_add, regSum_three]
    norm_num [INSTRUCTION_NUMBERS]
    try omega
  | subt =>
    obtain ⟨a, b, c, rfl⟩ := List.length_eq_three.mp hlen
    simp only [PATTERNS] at hreg
    rw [take_three] at hreg
    have ha := hreg a (by simp)
    have hb := hreg b (by simp)
    have hc := hreg c (by simp)
    refine ⟨a * 256 + (b * 16 + c), by omega, ?_⟩
    rw [spec_subt, regSum_three]
    norm_num [INSTRUCTION_NUMBERS]
    try omega
  | mul =>
    obtain ⟨a, b, c, rfl⟩ := List.length_eq_three.mp hlen
    simp only [PATTERNS] at hreg
    rw [take_three] at hreg
    have ha := hreg a (by simp)
    have hb := hreg b (by simp)
    have hc := hreg c (by simp)
    refine ⟨a * 256 + (b * 16 + c), by omega, ?_⟩
    rw [spec_mul, regSum_three]
    norm_num [INSTRUCTION_NUMBERS]
    try omega
  | mov3 =>
    obtain ⟨a, b, rfl⟩ := List.length_eq_two.mp hlen
    simp only [PATTERNS] at hreg
    rw [take_two] at hreg
    have ha := hreg a (by simp)
    have hb := hreg b (by simp)
    refine ⟨a * 256 + b * 16, by omega, ?_⟩
    rw [spec_mov3, regSum_two]
    norm_num [INSTRUCTION_NUMBERS]
    try omega
  | load =>
    obtain ⟨a, b, rfl⟩ := List.length_eq_two.mp hlen
    simp only [PATTERNS] at hreg
    rw [take_two] at hreg
    have ha := hreg a (by simp)
    have hb := hreg b (by simp)
    refine ⟨a * 256 + b * 16, by omega, ?_⟩
    rw [spec_load, regSum_two]
    norm_num [INSTRUCTION_NUMBERS]
    try omega
  | mov1 =>
    obtain ⟨a, m, rfl⟩ := List.length_eq_two.mp hlen
    simp only [PATTERNS] at hreg
    rw [take_one_of_two] at hreg
    have ha := hreg a (by simp)
    have hm := himm rfl
    rw [getLastD_two] at hm
    norm_num [PATTERNS] at hm
    refine ⟨a * 256 + m, by omega, ?_⟩
    rw [spec_mov1, regSum_one]
    norm_num [INSTRUCTION_NUMBERS]
    try omega
  | mov2 =>
    obtain ⟨a, m, rfl⟩ := List.length_eq_two.mp hlen
    simp only [PATTERNS] at hreg
    rw [take_one_of_two] at hreg
    have ha := hreg a (by simp)
    have hm := himm rfl
    rw [getLastD_two] at hm
    norm_num [PATTERNS] at hm
    refine ⟨a * 256 + m, by omega, ?_⟩
    rw [spec_mov2, regSum_one]
    norm_num [INSTRUCTION_NUMBERS]
    try omega
  | mov4 =>
    obtain ⟨a, m, rfl⟩ := List.length_eq_two.mp hlen
    simp only [PATTERNS] at hreg
    rw [take_one_of_two] at hreg
    have ha := hreg a (by simp)
    have hm := himm rfl
    rw [getLastD_two] at hm
    norm_num [PATTERNS] at hm
    refine ⟨a * 256 + m, by omega, ?_⟩
    rw [spec_mov4, regSum_one]
    norm_num [INSTRUCTION_NUMBERS]
    try omega
  | jz =>
    obtain ⟨a, m, rfl⟩ := List.length_eq_two.mp hlen
    simp only [PATTERNS] at hreg
    rw [take_one_of_two] at hreg
    have ha := hreg a (by simp)
    have hm := himm rfl
    rw [getLastD_two] at hm
    norm_num [PATTERNS] at hm
    refine ⟨a * 256 + m, by omega, ?_⟩
    rw [spec_jz, regSum_one]
    norm_num [INSTRUCTION_NUMBERS]
    try omega
  | readm =>
    obtain ⟨m, rfl⟩ := List.length_eq_one.mp hlen
    have hm := himm rfl
    rw [getLastD_one] at hm
    norm_num [PATTERNS] at hm
    refine ⟨m, by omega, ?_⟩
    rw [spec_readm]
    norm_num [INSTRUCTION_NUMBERS]
    try omega
  | halt =>
    have e0 : ns = [] := List.length_eq_zero.mp hlen
    subst e0
    refine ⟨0, by omega, ?_⟩
    rw [spec_halt]
    norm_num [INSTRUCTION_NUMBERS]
    try omega

/-! ## Success-path analysis of the line parser -/

/-- Anatomy of a successful parse: the stripped line was nonempty, a
mnemonic was extracted and resolved, the opcode number passed the 4-bit
check, the operand grammar matched, and the hex rendering succeeded. -/
theorem parseLineWith_ok_elim {nums : Mnemonic → Nat} {line : String} {i : Instruction}
    (h : parseLineWith nums line = .ok (some i)) :
    ∃ mn restRaw,
      extractCommand (stripLine line) = some (mn, restRaw) ∧
      mnemonicOfString (String.mk mn) = some i.action ∧
      nums i.action ≤ 15 ∧
      matchShape (PATTERNS i.action) (jsTrim restRaw) = some i.args ∧
      ∃ hexChars, toHex (encodeDecimal nums i.action i.args) 4 = .ok hexChars ∧
        i.hex = String.mk (hexChars.map jsToUpper) := by
  unfold parseLineWith at h
  split at h
  · simp at h
  split at h
  · simp at h
  next mn restRaw hEC =>
  split at h
  · simp at h
  next hIn =>
  split at h
  · simp at h
  next key hKey =>
  split at h
  · simp at h
  next h15 =>
  split at h
  · simp at h
  next ns hMS =>
  split at h
  · simp at h
  next hexChars hTH =>
  simp only [Except.ok.injEq, Option.some.injEq] at h
  subst h
  exact ⟨mn, restRaw, hEC, hKey, Nat.le_of_not_lt h15, hMS, hexChars, hTH, rfl⟩

/-- A successful parse fixes the operand count to the shape's arity and,
when no register operand reaches `2 ^ 23`, renders exactly the claim's
formula as the 4-digit uppercase hex word. -/
theorem parseLine_ok_spec {line : String} {i : Instruction}
    (h : parseLine line = .ok (some i))
    (hreg : ∀ v ∈ i.args.take (PATTERNS i.action).registers, v < 2 ^ 23) :
    i.args.length = arityOf i.action ∧
    encodeSpec i.action i.args < 65536 ∧
    i.hex = renderHex4 (encodeSpec i.action i.args) := by
  obtain ⟨mn, restRaw, hEC, hKey, h15, hMS, hexChars, hTH, hHex⟩ := parseLineWith_ok_elim h
  have hlen : i.args.length = arityOf i.action := by
    have h2 := matchShape_length hMS
    simpa [arityOf] using h2
  have hdec := encodeDecimal_eq i.action i.args hlen hreg
  rw [hdec] at hTH
  unfold toHex at hTH
  split at hTH
  · simp at hTH
  next hge =>
  simp only [Except.ok.injEq] at hTH
  have hlt : encodeSpec i.action i.args < 65536 := by
    have h2 : ((encodeSpec i.action i.args : Nat) : Int) < 65536 := by
      push_neg at hge
      calc ((encodeSpec i.action i.args : Nat) : Int) < (16 : Int) ^ 4 := hge
        _ = 65536 := by norm_num
    exact_mod_cast h2
  refine ⟨hlen, hlt, ?_⟩
  rw [hHex, ← hTH]
  have hjs : jsToString16 ((encodeSpec i.action i.args : Nat) : Int)
      = natToHex (encodeSpec i.action i.args) := by
    unfold jsToString16
    rw [if_neg (not_lt.mpr (Int.natCast_nonneg _)), Int.toNat_natCast]
  rw [hjs]
  rfl

/-- Length of the uppercase 4-digit rendering. -/
theorem renderHex4_length (n : Nat) (h : n < 65536) : (renderHex4 n).length = 4 := by
  have h1 := (render4_spec n h).1
  have h2 : (renderHex4 n).length = ((padLeftZeros 4 (natToHex n)).map jsToUpper).length := rfl
  rw [h2, List.length_map]
  exact h1

/-- Leading character of the uppercase 4-digit rendering. -/
theorem renderHex4_head (n : Nat) (h : n < 65536) :
    (renderHex4 n).data.headD ' ' = upperHexDigitChar (n / 4096) := by
  have h2 : (renderHex4 n).data = (padLeftZeros 4 (natToHex n)).map jsToUpper := rfl
  have h3 : jsToUpper ' ' = ' ' := rfl
  rw [h2, ← h3, headD_map, (render4_spec n h).2]
  rfl

/-- Every numeric opcode in the table fits in 4 bits. -/
theorem instructionNumbers_le15 (k : Mnemonic) : INSTRUCTION_NUMBERS k ≤ 15 := by
  cases k <;> simp [INSTRUCTION_NUMBERS]

/-! ## Claim theorems -/

/-- Claim C1, corrected. As stated, the claim fails: the source computes the
register shifts with JavaScript's 32-bit `<<`, so a register operand of
`8388608 = 2 ^ 23` wraps to a negative word. The line `add R8388608 R0 R0`
parses successfully, yet its hex field is the 9-character string
`-7FFFC000`: neither the rendering of the claim's formula
`(4 << 12) + (8388608 << 8)` nor 4 uppercase zero-padded hex digits. -/
theorem claim1_cex :
    parseLine ("add R8388608 R0 R0")
      = .ok (some ⟨[8388608, 0, 0], Mnemonic.add, "-7FFFC000"⟩)
    ∧ ("-7FFFC000" : String)
        ≠ renderHex4 (encodeSpec Mnemonic.add [8388608, 0, 0])
    ∧ ("-7FFFC000" : String).length ≠ 4 := by
  refine ⟨rfl, ?_, ?_⟩ <;> decide

/-- Claim C1 (amended: restricted to lines whose register operand values
are all below `2 ^ 23`, so that no JavaScript 32-bit shift wraps — the
counterexample `claim1_cex` forces this restriction). For every line that
parses successfully with opcode code `c`, register values `v_0 .. v_{R-1}`
in textual order and immediate `m` (when the shape has one), the encoded
word equals `(c << 12) + Σ v_i << (4 * (2 - i)) + m`, and the instruction's
hex field is exactly that value rendered as 4 uppercase zero-padded
hexadecimal digits. -/
theorem claim1_encoding (line : String) (i : Instruction)
    (h : parseLine line = .ok (some i))
    (hreg : ∀ v ∈ i.args.take (PATTERNS i.action).registers, v < 2 ^ 23) :
    i.hex = renderHex4 (encodeSpec i.action i.args) ∧ i.hex.length = 4 := by
  obtain ⟨-, hlt, hhex⟩ := parseLine_ok_spec h hreg
  exact ⟨hhex, by rw [hhex]; exact renderHex4_length _ hlt⟩

/-- Witness for `claim1_encoding` at the concrete line `add R1 R2 R3`. -/
theorem claim1_encoding_witness :
    ("4123" : String) = renderHex4 (encodeSpec Mnemonic.add [1, 2, 3])
    ∧ ("4123" : String).length = 4 :=
  claim1_encoding ("add R1 R2 R3") ⟨[1, 2, 3], Mnemonic.add, "4123"⟩ rfl (by decide)

/-- Claim C2: the four example encodings of the spec. `add R1 R2 R3`
encodes to `4123`, `subt R0 R1 R2` to `5012`, `halt` to `F000` and
`mul R1 R2 R3` to `8123`. -/
theorem claim2_examples :
    parseLine ("add R1 R2 R3") = .ok (some ⟨[1, 2, 3], Mnemonic.add, "4123"⟩)
    ∧ parseLine ("subt R0 R1 R2") = .ok (some ⟨[0, 1, 2], Mnemonic.subt, "5012"⟩)
    ∧ parseLine ("halt") = .ok (some ⟨[], Mnemonic.halt, "F000"⟩)
    ∧ parseLine ("mul R1 R2 R3") = .ok (some ⟨[1, 2, 3], Mnemonic.mul, "8123"⟩) :=
  ⟨rfl, rfl, rfl, rfl⟩

/-- Claim C3, corrected. As stated, the claim fails: the encoder does not
range-check register operands, so `add R16 R0 R0` parses successfully and
its word `5000` carries top hex digit `5`, not add's opcode digit `4` — the
oversized register value bled into the opcode field. -/
theorem claim3_cex :
    parseLine ("add R16 R0 R0") = .ok (some ⟨[16, 0, 0], Mnemonic.add, "5000"⟩)
    ∧ ("5000" : String).data.headD ' '
        ≠ upperHexDigitChar (INSTRUCTION_NUMBERS Mnemonic.add) := by
  refine ⟨rfl, ?_⟩
  decide

/-- Claim C3 (amended: restricted to lines whose register operand values
all fit their 4-bit fields, `v < 16`, and whose immediate — when the shape
has one — fits the remaining low bits, `m < 16 ^ (3 - R)`; the
counterexample `claim3_cex` forces this restriction). For every mnemonic
and every such successfully parsed line, the most significant hex digit of
the encoded word is that mnemonic's numeric opcode rendered as an uppercase
hex digit. -/
theorem claim3_top_digit (line : String) (i : Instruction)
    (h : parseLine line = .ok (some i))
    (hreg : ∀ v ∈ i.args.take (PATTERNS i.action).registers, v < 16)
    (himm : (PATTERNS i.action).immediate = true →
      (i.args.getLast?).getD 0 < 16 ^ (3 - (PATTERNS i.action).registers)) :
    i.hex.data.headD ' ' = upperHexDigitChar (INSTRUCTION_NUMBERS i.action) := by
  have hreg23 : ∀ v ∈ i.args.take (PATTERNS i.action).registers, v < 2 ^ 23 :=
    fun v hv => lt_trans (hreg v hv) (by norm_num)
  obtain ⟨hlen, hlt, hhex⟩ := parseLine_ok_spec h hreg23
  obtain ⟨r, hr, hdec⟩ := encodeSpec_decomp i.action i.args hlen hreg himm
  have hdiv : encodeSpec i.action i.args / 4096 = INSTRUCTION_NUMBERS i.action := by
    rw [hdec]
    omega
  rw [hhex, renderHex4_head _ hlt, hdiv]

/-- Witness for `claim3_top_digit` at the concrete line `jz R1 5`. -/
theorem claim3_top_digit_witness :
    ("6105" : String).data.headD ' ' = upperHexDigitChar (INSTRUCTION_NUMBERS Mnemonic.jz) :=
  claim3_top_digit ("jz R1 5") ⟨[1, 5], Mnemonic.jz, "6105"⟩ rfl (by decide) (by decide)

/-- Claim C6: the Word Encoder performs no per-operand range check. The
syntactically valid line `subt R16 R1 R2` carries the register operand
value 16, too large for a 4-bit field; it parses without error and the
oversized value's bits overlap into the adjacent opcode field, silently
corrupting the word to `6012` — whose top digit is not subt's opcode. -/
theorem claim6_no_range_check :
    ∃ (line : String) (i : Instruction),
      parseLine line = .ok (some i)
      ∧ (∃ v ∈ i.args.take (PATTERNS i.action).registers, 16 ≤ v)
      ∧ i.hex.data.headD ' ' ≠ upperHexDigitChar (INSTRUCTION_NUMBERS i.action) := by
  refine ⟨"subt R16 R1 R2", ⟨[16, 1, 2], Mnemonic.subt, "6012"⟩, rfl, ?_, ?_⟩ <;> decide

/-- Claim C4: the `jz` action fires on NON-zero. For a register index `r`
and a 16-slot register file, invoking `jz(r, t)` with `REG[r] = 0` leaves
the program counter unchanged, and invoking it with `REG[r] ≠ 0` sets the
program counter to `t`. -/
theorem claim4_jz (r t : Nat) (s : MachineState) (hr : r < 16)
    (hlen : s.reg.length = 16) :
    (s.reg.getD r 0 = 0 → (jz r t s).counter = s.counter)
    ∧ (s.reg.getD r 0 ≠ 0 → (jz r t s).counter = (t : Int)) := by
  constructor
  · intro h0
    unfold jz
    rw [if_neg (fun hcon => hcon h0)]
  · intro h0
    unfold jz
    rw [if_pos h0]

/-- Witness for `claim4_jz`: both branches at concrete states. -/
theorem claim4_jz_witness :
    ((jz 3 9 initialState).counter = initialState.counter)
    ∧ ((jz 2 7 { initialState with
        reg := (List.replicate 16 (0 : Int)).set 2 5 }).counter = (7 : Int)) :=
  ⟨(claim4_jz 3 9 initialState (by decide)
      (by set_option maxRecDepth 8192 in decide)).1
      (by set_option maxRecDepth 8192 in decide),
   (claim4_jz 2 7 { initialState with reg := (List.replicate 16 (0 : Int)).set 2 5 }
      (by decide) (by set_option maxRecDepth 8192 in decide)).2
      (by set_option maxRecDepth 8192 in decide)⟩

/-- Claim C5: `mov4(a, m)` writes the immediate `m` to memory slot `a` and
leaves the register file unchanged (it writes memory, not a register,
despite the mnemonic). -/
theorem claim5_mov4 (a m : Nat) (s : MachineState) (hlen : s.mem.length = 256)
    (ha : a < 256) :
    (mov4 a m s).mem.getD a 0 = (m : Int) ∧ (mov4 a m s).reg = s.reg := by
  constructor
  · unfold mov4
    simp only [List.getD]
    rw [List.get?_eq_getElem?,
      List.getElem?_set_eq_of_lt ((m : Nat) : Int) (show a < s.mem.length by omega)]
    rfl
  · rfl

/-- Witness for `claim5_mov4` at slot 5, value 42, from the initial state. -/
theorem claim5_mov4_witness :
    (mov4 5 42 initialState).mem.getD 5 0 = (42 : Int)
    ∧ (mov4 5 42 initialState).reg = initialState.reg :=
  claim5_mov4 5 42 initialState (by set_option maxRecDepth 8192 in decide) (by decide)

/-- One `readm` invocation: the new output log is the immediate at index 0
followed by whatever was at indices 1 and beyond. -/
theorem readm_out (x : Nat) (s : MachineState) :
    (readm x s).out = ((x : Nat) : Int) :: s.out.tail := by
  unfold readm jsSetList TIME
  cases hso : s.out with
  | nil => simp
  | cons a t => simp

/-- Folding `readm` over a nonempty list of immediates, starting from a
log of length at most one, leaves exactly the last immediate at index 0. -/
theorem foldl_readm (ms : List Nat) (hms : ms ≠ []) :
    ∀ s : MachineState, s.out.tail = [] →
      (ms.foldl (fun st x => readm x st) s).out = [((ms.getLast hms : Nat) : Int)] := by
  induction ms with
  | nil => exact absurd rfl hms
  | cons x ms ih =>
    intro s hs
    cases ms with
    | nil =>
      rw [List.foldl_cons, List.foldl_nil, readm_out, hs]
      rfl
    | cons y ms2 =>
      have h2 : (y :: ms2) ≠ [] := by simp
      rw [List.foldl_cons]
      have htail : (readm x s).out.tail = [] := by
        rw [readm_out]
        exact hs
      rw [List.getLast_cons h2]
      exact ih h2 (readm x s) htail

/-- Claim C10: `readm` writes its immediate to output-log index `TIME`,
`TIME` is the constant 0 and is never advanced, so running any nonempty
sequence of `readm` invocations from the initial empty log leaves only the
most recently written value, at index 0, rather than an appended history. -/
theorem claim10_readm (m : Nat) (ms : List Nat) (s s2 : MachineState)
    (hms : ms ≠ []) (hout : s.out = []) :
    TIME = 0
    ∧ (readm m s2).out.getD TIME 0 = ((m : Nat) : Int)
    ∧ (ms.foldl (fun st x => readm x st) s).out = [((ms.getLast hms : Nat) : Int)] := by
  refine ⟨rfl, ?_, ?_⟩
  · rw [readm_out]
    rfl
  · exact foldl_readm ms hms s (by rw [hout]; rfl)

/-- Witness for `claim10_readm`: three successive `readm`s from the initial
state leave only the last value in the log. -/
theorem claim10_readm_witness :
    TIME = 0
    ∧ (readm 5 initialState).out.getD TIME 0 = ((5 : Nat) : Int)
    ∧ (([1, 2, 3] : List Nat).foldl (fun st x => readm x st) initialState).out
        = [((([1, 2, 3] : List Nat).getLast (by decide) : Nat) : Int)] :=
  claim10_readm 5 [1, 2, 3] initialState initialState (by decide) rfl

/-- Claim C7, corrected. As stated, the claim fails: JavaScript's `in`
operator searches the prototype chain, so the non-blank line `toString` —
whose mnemonic is not one of the eleven Opcode Table mnemonics — passes the
`instruction in PATTERNS` membership test. The program then proceeds and
throws a TypeError when destructuring the inherited function
`PATTERNS["toString"]`, not the claimed unknown-instruction error naming
the mnemonic. -/
theorem claim7_cex :
    mnemonicOfString ("toString") = none
    ∧ stripLine ("toString") ≠ []
    ∧ parseLine ("toString") = .error ("TypeError: patterns is not iterable")
    ∧ ("TypeError: patterns is not iterable" : String)
        ≠ "Unknown instruction: toString" := by
  refine ⟨rfl, ?_, rfl, ?_⟩ <;> decide

/-- Claim C7 (amended: the unknown-instruction error is raised only when
the mnemonic token is also not one of the alphanumeric property names that
`PATTERNS` inherits from `Object.prototype`; on those inherited names the
membership test passes and a TypeError is raised instead — `claim7_cex`
forces this split). `parseLine` raises an error (never returns a value,
never silently skips) on every non-blank line whose mnemonic token is not
in the Opcode Table: the unknown-instruction error naming the mnemonic when
the token is not an inherited property name, and the destructuring
TypeError when it is; and on every line whose operand text does not match
the resolved opcode's operand shape, an operand-grammar error naming the
mnemonic and the remainder text. -/
theorem claim7_errors (line : String) :
    (∀ mn restRaw, extractCommand (stripLine line) = some (mn, restRaw) →
      mnemonicOfString (String.mk mn) = none →
      (protoProps.contains (String.mk mn) = false →
        parseLine line = .error ("Unknown instruction: " ++ String.mk mn))
      ∧ (protoProps.contains (String.mk mn) = true →
        parseLine line = .error ("TypeError: patterns is not iterable")))
    ∧ (∀ mn restRaw key, extractCommand (stripLine line) = some (mn, restRaw) →
      mnemonicOfString (String.mk mn) = some key →
      matchShape (PATTERNS key) (jsTrim restRaw) = none →
      parseLine line = .error ("Unable to parse arguments for \"" ++ String.mk mn
        ++ "\": \"" ++ String.mk (jsTrim restRaw) ++ "\"")) := by
  constructor
  · intro mn restRaw hEC hNone
    have hne : stripLine line ≠ [] := by
      intro he
      rw [he] at hEC
      simp [extractCommand] at hEC
    constructor
    · intro hProto
      unfold parseLine parseLineWith
      rw [if_neg hne]
      simp only [hEC]
      rw [if_pos (show (! jsInPatterns (String.mk mn)) = true by
        simp only [jsInPatterns, hNone, hProto, Option.isSome_none, Bool.or_false,
          Bool.not_false])]
    · intro hProto
      unfold parseLine parseLineWith
      rw [if_neg hne]
      simp only [hEC]
      rw [if_neg (show ¬ ((! jsInPatterns (String.mk mn)) = true) by
        simp only [jsInPatterns, hProto, Bool.or_true, Bool.not_true]
        exact Bool.false_ne_true)]
      simp only [hNone]
  · intro mn restRaw key hEC hKey hMS
    have hne : stripLine line ≠ [] := by
      intro he
      rw [he] at hEC
      simp [extractCommand] at hEC
    have h15 : ¬ (INSTRUCTION_NUMBERS key > 15) :=
      not_lt.mpr (instructionNumbers_le15 key)
    unfold parseLine parseLineWith
    rw [if_neg hne]
    simp only [hEC]
    rw [if_neg (show ¬ ((! jsInPatterns (String.mk mn)) = true) by
      simp only [jsInPatterns, hKey, Option.isSome_some, Bool.true_or, Bool.not_true]
      exact Bool.false_ne_true)]
    simp only [hKey, if_neg h15, hMS]

/-- Witness for `claim7_errors`: an unknown mnemonic, an inherited
`Object.prototype` name used as a mnemonic, and a wrong operand count each
raise the documented error. -/
theorem claim7_errors_witness :
    parseLine ("foo R1") = .error ("Unknown instruction: foo")
    ∧ parseLine ("valueOf 5") = .error ("TypeError: patterns is not iterable")
    ∧ parseLine ("add R1 R2")
        = .error ("Unable to parse arguments for \"add\": \"R1 R2\"") :=
  ⟨((claim7_errors ("foo R1")).1 ("foo".data) (" R1".data) rfl rfl).1 rfl,
   ((claim7_errors ("valueOf 5")).1 ("valueOf".data) (" 5".data) rfl rfl).2 rfl,
   (claim7_errors ("add R1 R2")).2 ("add".data) (" R1 R2".data) Mnemonic.add rfl rfl rfl⟩

/-- Filtering the per-line results of a successful `mapParse` is the same
as filter-mapping the parse over the lines in source order. -/
theorem mapParse_filter (ls : List String) (rs : List (Option Instruction))
    (h : mapParse ls = .ok rs) :
    rs.filterMap id = ls.filterMap (fun ln => (parseLine ln).toOption.bind id) := by
  induction ls generalizing rs with
  | nil =>
    unfold mapParse at h
    simp only [Except.ok.injEq] at h
    subst h
    rfl
  | cons l ls ih =>
    unfold mapParse at h
    split at h
    · simp at h
    next r hr =>
    split at h
    · simp at h
    next rs2 hrs =>
    simp only [Except.ok.injEq] at h
    subst h
    rw [List.filterMap_cons, List.filterMap_cons]
    cases r with
    | none => simp [hr, Except.toOption, ih rs2 hrs]
    | some i => simp [hr, Except.toOption, ih rs2 hrs]

/-- Claim C8: a successful assembly returns exactly the decoded
instructions of the lines that are not blank and not comment-only, in
source order with no reordering; and every line that is only whitespace or
only a comment parses to "no instruction" and is therefore absent. -/
theorem claim8_assemble (text : String) (out : List Instruction)
    (h : parse text = .ok out) :
    out = ((splitLines text.data).map (fun cs => String.mk cs)).filterMap
        (fun ln => (parseLine ln).toOption.bind id)
    ∧ ∀ ln ∈ (splitLines text.data).map (fun cs => String.mk cs),
        stripLine ln = [] → parseLine ln = .ok none := by
  constructor
  · unfold parse at h
    cases hm : mapParse ((splitLines text.data).map (fun cs => String.mk cs)) with
    | error e => rw [hm] at h; simp [Except.map] at h
    | ok rs =>
      rw [hm] at h
      simp only [Except.map, Except.ok.injEq] at h
      subst h
      exact (mapParse_filter _ rs hm).symm ▸ (mapParse_filter _ rs hm)
  · intro ln _ hb
    unfold parseLine parseLineWith
    rw [if_pos hb]

/-- Witness for `claim8_assemble` on a program with a comment line and a
blank line between two instructions. -/
theorem claim8_assemble_witness :
    ([⟨[1, 2, 3], Mnemonic.add, "4123"⟩, ⟨[], Mnemonic.halt, "F000"⟩] : List Instruction)
      = ((splitLines ("add R1 R2 R3\n# note\n\nhalt").data).map (fun cs => String.mk cs)).filterMap
          (fun ln => (parseLine ln).toOption.bind id)
    ∧ ∀ ln ∈ (splitLines ("add R1 R2 R3\n# note\n\nhalt").data).map (fun cs => String.mk cs),
        stripLine ln = [] → parseLine ln = .ok none :=
  claim8_assemble ("add R1 R2 R3\n# note\n\nhalt")
    ([⟨[1, 2, 3], Mnemonic.add, "4123"⟩, ⟨[], Mnemonic.halt, "F000"⟩]) rfl

/-- Claim C9, corrected. As stated, the claim fails: nothing checks the
table at initialization. With a table whose `halt` entry is 16 (not
representable in 4 bits), other lines still parse successfully — no
fail-fast ever fired — and the invalid entry is rejected only when a `halt`
line is itself parsed, by the per-parse check inside `parseLine`. -/
theorem claim9_cex :
    parseLineWith badNums ("add R1 R2 R3")
      = .ok (some ⟨[1, 2, 3], Mnemonic.add, "4123"⟩)
    ∧ parseLineWith badNums ("halt") = .error ("Invalid instruction number: 16") :=
  ⟨rfl, rfl⟩

/-- Claim C9 (amended: the 4-bit check is per-parse, not an initialization
assertion — `claim9_cex` forces this). Every numeric opcode code in the
table is unique and representable in 4 bits (0–15); and the representability
bound is enforced by a check inside `parseLine` on the resolved mnemonic's
code, raising an invalid-instruction-number error when it exceeds 15. -/
theorem claim9_numbers :
    (∀ k1 k2 : Mnemonic, INSTRUCTION_NUMBERS k1 = INSTRUCTION_NUMBERS k2 → k1 = k2)
    ∧ (∀ k : Mnemonic, INSTRUCTION_NUMBERS k ≤ 15)
    ∧ (∀ (nums : Mnemonic → Nat) (line : String) (mn restRaw : List Char) (key : Mnemonic),
        extractCommand (stripLine line) = some (mn, restRaw) →
        mnemonicOfString (String.mk mn) = some key →
        15 < nums key →
        parseLineWith nums line
          = .error ("Invalid instruction number: " ++ toString (nums key))) := by
  refine ⟨?_, instructionNumbers_le15, ?_⟩
  · intro k1 k2 h12
    cases k1 <;> cases k2 <;> first
      | rfl
      | simp [INSTRUCTION_NUMBERS] at h12
  · intro nums line mn restRaw key hEC hKey hGt
    have hne : stripLine line ≠ [] := by
      intro he
      rw [he] at hEC
      simp [extractCommand] at hEC
    unfold parseLineWith
    rw [if_neg hne]
    simp only [hEC]
    rw [if_neg (show ¬ ((! jsInPatterns (String.mk mn)) = true) by
      simp only [jsInPatterns, hKey, Option.isSome_some, Bool.true_or, Bool.not_true]
      exact Bool.false_ne_true)]
    simp only [hKey, if_pos hGt]

/-- Witness for `claim9_numbers`: the per-parse check fires on the bad
table's `halt` entry. -/
theorem claim9_numbers_witness :
    parseLineWith badNums ("halt")
      = .error ("Invalid instruction number: " ++ toString (badNums Mnemonic.halt)) :=
  claim9_numbers.2.2 badNums ("halt") ("halt".data) ([]) Mnemonic.halt rfl rfl (by decide)

end Converter
